import Mathlib

/-!
Verification development for the Lichess bot module `src/utils/lichess_bot.py`
of the sykora repository.

The module is shallowly embedded: pure helpers become Lean functions, the
stateful `GameSession` / `BotService` code becomes explicit state passing over
record types, and the external collaborators (the python-chess rules library,
the berserk platform client, the engine subprocess) are modelled as an abstract
interface plus oracles for the outcomes of their calls, exactly at the
granularity the bot code observes them.
-/

namespace Sykora

/-- Embeds `BotConfig` (src/utils/lichess_bot.py).  Only the fields the
session/concurrency logic reads are kept; `api_token` and `engine_command` are
consumed by collaborators outside this scope.  `move_overhead_ms` is a `Nat`
because `_parse_int` enforces `minimum=0`; clock quantities are rationals in
place of Python floats. -/
structure BotConfig where
  allowedVariants : List String
  maxConcurrentGames : Nat
  reconnectBaseSeconds : ℚ
  maxBackoffSeconds : ℚ
  moveOverheadMs : Nat
  fallbackMoveTimeSeconds : ℚ
deriving DecidableEq

/-- The values the Lichess stream can put in a clock field, as `_to_millis`
distinguishes them: `absent` is Python `None`; `duration` is an object with a
`total_seconds()` method (a `datetime.timedelta`); `intLike` is anything
`int(value)` converts; `unconvertible` is anything whose conversion raises
`TypeError`/`ValueError`. -/
inductive ClockValue where
  | absent : ClockValue
  | duration (totalSeconds : ℚ) : ClockValue
  | intLike (n : ℤ) : ClockValue
  | unconvertible : ClockValue
deriving DecidableEq

/-- Python `int(x)` on a number truncates toward zero. -/
def truncToInt (q : ℚ) : ℤ :=
  if 0 ≤ q then ⌊q⌋ else ⌈q⌉

/-- Embeds `_to_millis` (src/utils/lichess_bot.py:142-150): `None` ↦ 0,
`total_seconds()*1000` truncated and clamped at 0, `int(value)` clamped at 0,
and unconvertible values ↦ 0 via the caught `TypeError`/`ValueError`. -/
def toMillis : ClockValue → ℤ
  | .absent => 0
  | .duration t => max 0 (truncToInt (t * 1000))
  | .intLike n => max 0 n
  | .unconvertible => 0

/-- Embeds `chess.engine.Limit` as the bot constructs it: either a fixed
`time` or the four clock fields, all in seconds. -/
structure Limit where
  time : Option ℚ
  whiteClock : Option ℚ
  blackClock : Option ℚ
  whiteInc : Option ℚ
  blackInc : Option ℚ
deriving DecidableEq

/-- The fallback limit `chess.engine.Limit(time=fallback_move_time_seconds)`. -/
def fallbackLimit (cfg : BotConfig) : Limit :=
  { time := some cfg.fallbackMoveTimeSeconds
    whiteClock := none, blackClock := none, whiteInc := none, blackInc := none }

/-- A game-state event (`gameState` payload, or the `state` sub-object of a
`gameFull` payload).  `moves` is the whitespace-tokenized move list of the
`moves` string; `status` is the raw `status` string with absence/emptiness
represented by `""` (the code defaults it to `"started"`). -/
structure StateEvent where
  moves : List String
  status : String
  wtime : ClockValue
  btime : ClockValue
  winc : ClockValue
  binc : ClockValue
deriving DecidableEq

/-- `str(state.get("status") or "started")` from `_handle_state`. -/
def effStatus (s : String) : String :=
  if s = "" then "started" else s

/-- Embeds `GameSession._build_limit` (src/utils/lichess_bot.py:350-364):
subtract the overhead from each side's millisecond clock, floor at zero, and
use the clock-aware limit only when both floored values are strictly positive;
otherwise the fixed fallback think time. -/
def buildLimit (cfg : BotConfig) (ev : StateEvent) : Limit :=
  let wtimeMs : ℤ := max 0 (toMillis ev.wtime - (cfg.moveOverheadMs : ℤ))
  let btimeMs : ℤ := max 0 (toMillis ev.btime - (cfg.moveOverheadMs : ℤ))
  let wincMs : ℤ := toMillis ev.winc
  let bincMs : ℤ := toMillis ev.binc
  if 0 < wtimeMs ∧ 0 < btimeMs then
    { time := none
      whiteClock := some ((wtimeMs : ℚ) / 1000)
      blackClock := some ((btimeMs : ℚ) / 1000)
      whiteInc := some ((wincMs : ℚ) / 1000)
      blackInc := some ((bincMs : ℚ) / 1000) }
  else
    fallbackLimit cfg

/-- The clock-aware limit exactly as claim C7 words it: each side's remaining
time minus the overhead margin, floored at zero, plus the increments.  This
definition follows the spec's words, for comparison against `buildLimit`,
which is translated from the source. -/
def specClockLimit (cfg : BotConfig) (ev : StateEvent) : Limit :=
  let w : ℤ := max 0 (toMillis ev.wtime - (cfg.moveOverheadMs : ℤ))
  let b : ℤ := max 0 (toMillis ev.btime - (cfg.moveOverheadMs : ℤ))
  { time := none
    whiteClock := some ((w : ℚ) / 1000)
    blackClock := some ((b : ℚ) / 1000)
    whiteInc := some ((toMillis ev.winc : ℚ) / 1000)
    blackInc := some ((toMillis ev.binc : ℚ) / 1000) }

/-- The reconnect-backoff sequence of one subscription loop
(`GameSession.run`, src/utils/lichess_bot.py:180-209, and
`BotService.run_forever`, src/utils/lichess_bot.py:424-460): the delay slept
before retry `n`.  The loop initializes `backoff = reconnect_base_seconds` and
after each sleep updates `backoff = min(backoff * 2.0, max_backoff_seconds)`. -/
def backoffSeq (base maxB : ℚ) : Nat → ℚ
  | 0 => base
  | n + 1 => min (backoffSeq base maxB n * 2) maxB

/-- What one iteration of the subscription loop observed before reaching the
retry point: either the stream ended without a finish signal, or opening or
reading it raised.  A successful long connection that later drops shows up as
`ended` or `errored` here as well — the loop body has no third path to the
sleep. -/
inductive LoopOutcome where
  | ended : LoopOutcome
  | errored : LoopOutcome
deriving DecidableEq

/-- The backoff update executed at the end of one loop iteration
(src/utils/lichess_bot.py:208-209 and 459-460).  Both the stream-ended path
and the exception path fall through to the same `time.sleep(backoff)` and
`backoff = min(backoff * 2.0, max_backoff_seconds)` lines; there is no branch
that resets the delay to the base value. -/
def nextBackoff (maxB delay : ℚ) (o : LoopOutcome) : ℚ :=
  match o with
  | .ended => min (delay * 2) maxB
  | .errored => min (delay * 2) maxB

/-- The successive delays slept by a subscription loop that runs through the
iteration outcomes `os`, starting from the current delay `delay`. -/
def retryDelays (maxB : ℚ) (delay : ℚ) : List LoopOutcome → List ℚ
  | [] => []
  | o :: os => delay :: retryDelays maxB (nextBackoff maxB delay o) os

/-- The chess-rules collaborator (the python-chess library), which the spec
places out of scope ("move legality, board representation, and notation
parsing (provided by a chess-rules capability)").  The bot observes it only
through these operations: construct the default board (`chess.Board()`),
construct from a FEN (`chess.Board(fen)`, which may raise `ValueError`), apply
one UCI token (`board.push_uci`, which may raise `ValueError`), and query
`ply()`, `turn` and `is_game_over()`. -/
structure ChessRules (Board : Type) where
  defaultBoard : Board
  fromFen : String → Option Board
  pushUci : Board → String → Option Board
  ply : Board → Nat
  turnWhite : Board → Bool
  isGameOver : Board → Bool

/-- Replay a move-token list left to right with `push_uci`, failing as soon as
one token is unparseable or illegal. -/
def replayMoves {Board : Type} (R : ChessRules Board) : Board → List String → Option Board
  | b, [] => some b
  | b, m :: ms =>
    match R.pushUci b m with
    | none => none
    | some b2 => replayMoves R b2 ms

/-- Embeds `GameSession._rebuild_board` (src/utils/lichess_bot.py:267-287) as
a pure function of the session's `initial_fen` and the tokenized move list:
build the initial board (`chess.Board()` for `"startpos"`, else
`chess.Board(initial_fen)`), then replay every token; `none` is the caught
`ValueError` path, in which the method returns `False` without having touched
`self.board`. -/
def rebuildBoard {Board : Type} (R : ChessRules Board) (initialFen : String)
    (moves : List String) : Option Board :=
  match (if initialFen = "startpos" then some R.defaultBoard else R.fromFen initialFen) with
  | none => none
  | some b0 => replayMoves R b0 moves

/-- The mutable state of one `GameSession` (src/utils/lichess_bot.py:153-178)
as the event handlers read and write it.  `engineRunning` stands for
`self.engine is not None`. -/
structure Session (Board : Type) where
  initialFen : String
  board : Board
  isWhite : Option Bool
  finished : Bool
  pendingMovePly : Option Nat
  engineRunning : Bool
deriving DecidableEq

/-- A freshly constructed `GameSession.__init__` state for a game. -/
def freshSession {Board : Type} (R : ChessRules Board) : Session Board :=
  { initialFen := "startpos"
    board := R.defaultBoard
    isWhite := none
    finished := false
    pendingMovePly := none
    engineRunning := false }

/-- One outcome of `self.engine.play(self.board, limit)` after
`_ensure_engine`: a move, an empty result (`result.move is None`), an
`EngineTerminatedError`, or any other exception. -/
inductive PlayOutcome where
  | success (move : String) : PlayOutcome
  | noMove : PlayOutcome
  | terminated : PlayOutcome
  | otherError : PlayOutcome
deriving DecidableEq

/-- The engine-subprocess oracle for one `_compute_move` call: what
`engine.play` would do on the first and on the retried attempt. -/
structure EngineOracle where
  attempt1 : PlayOutcome
  attempt2 : PlayOutcome
deriving DecidableEq

/-- Embeds `GameSession._compute_move` (src/utils/lichess_bot.py:325-348)
given the engine oracle.  Returns the chosen move (if any), whether the engine
subprocess is left running, and how many times `_ensure_engine` spawned a
subprocess during the call.  The `for attempt in (1, 2)` loop retries exactly
once and only on `EngineTerminatedError`, calling `_restart_engine` (which
shuts the engine down; the next `_ensure_engine` respawns it); any other
exception returns `None` immediately, and falling out of the loop returns
`None`. -/
def computeMove (running : Bool) (o1 o2 : PlayOutcome) : Option String × Bool × Nat :=
  let starts1 : Nat := if running then 0 else 1
  match o1 with
  | .success m => (some m, true, starts1)
  | .noMove => (none, true, starts1)
  | .otherError => (none, true, starts1)
  | .terminated =>
    match o2 with
    | .success m => (some m, true, starts1 + 1)
    | .noMove => (none, true, starts1 + 1)
    | .otherError => (none, true, starts1 + 1)
    | .terminated => (none, false, starts1 + 1)

/-- One outcome of `self.client.bots.make_move(...)`: success, a berserk
`ResponseError` carrying a message, or any other exception. -/
inductive SubmitOutcome where
  | ok : SubmitOutcome
  | responseError (msg : String) : SubmitOutcome
  | otherException : SubmitOutcome
deriving DecidableEq

/-- Python `str.lower()` on one character, for the ASCII strings the bot
compares (variant keys, usernames, error messages). -/
def lowerChar (c : Char) : Char :=
  if 65 ≤ c.toNat ∧ c.toNat ≤ 90 then Char.ofNat (c.toNat + 32) else c

/-- Python `str.lower()`. -/
def lowerString (s : String) : String :=
  ⟨s.data.map lowerChar⟩

/-- `needle` occurs as a contiguous subsequence of the haystack. -/
def containsSeq (needle : List Char) : List Char → Bool
  | [] => needle.isEmpty
  | c :: t => needle.isPrefixOf (c :: t) || containsSeq needle t

/-- Python's substring test `needle in s`. -/
def containsSubstr (needle s : String) : Bool :=
  containsSeq needle.data s.data

/-- Embeds `GameSession._submit_move` (src/utils/lichess_bot.py:366-380) as
its effect on `pending_move_ply`: on success the marker is set to
`current_ply`; on a `ResponseError` whose lowercased message contains
`"not your turn"` the marker is set the same way; on any other
`ResponseError`, and on any other exception, the marker is left unchanged.
The method makes exactly one `make_move` call and never retries. -/
def submitMove (pending : Option Nat) (currentPly : Nat) (o : SubmitOutcome) : Option Nat :=
  match o with
  | .ok => some currentPly
  | .responseError msg =>
    if containsSubstr "not your turn" (lowerString msg) then some currentPly else pending
  | .otherException => pending

/-- How many times `_submit_move` calls `self.client.bots.make_move` for one
invocation: the body issues the call once, and neither exception branch calls
it again. -/
def submitCallCount (_o : SubmitOutcome) : Nat := 1

/-- The externally visible effects of handling one game-stream event: the new
session state, the ply at which a `make_move` call was issued (if one was),
the number of engine subprocess spawns, and whether `resign_game` was
called. -/
structure StepOut (Board : Type) where
  session : Session Board
  submitted : Option Nat
  engineStarts : Nat
  resigned : Bool
deriving DecidableEq

/-- Embeds `GameSession._handle_state` (src/utils/lichess_bot.py:289-323).
`st = none` is the `if not state: return` path (an empty or missing `state`
dict).  Otherwise: rebuild the board from the move list (dropping the event
on failure); finish on a non-`started` status or a game-over board; clear the
pending marker once the reported ply exceeds it; return if a marker is still
set, the color is unresolved, or it is not our turn; otherwise compute a move
via the engine oracle and, if one is returned, submit it at the current ply. -/
def handleState {Board : Type} (R : ChessRules Board) (s : Session Board)
    (st : Option StateEvent) (eng : EngineOracle) (sub : SubmitOutcome) : StepOut Board :=
  match st with
  | none => ⟨s, none, 0, false⟩
  | some ev =>
    match rebuildBoard R s.initialFen ev.moves with
    | none => ⟨s, none, 0, false⟩
    | some b =>
      let s1 : Session Board := { s with board := b }
      if effStatus ev.status ≠ "started" ∨ R.isGameOver b then
        ⟨{ s1 with finished := true }, none, 0, false⟩
      else
        let pending1 : Option Nat :=
          match s1.pendingMovePly with
          | some k => if k < R.ply b then none else some k
          | none => none
        let s2 : Session Board := { s1 with pendingMovePly := pending1 }
        if pending1.isSome then ⟨s2, none, 0, false⟩
        else
          match s2.isWhite with
          | none => ⟨s2, none, 0, false⟩
          | some w =>
            if R.turnWhite b ≠ w then ⟨s2, none, 0, false⟩
            else
              let cm := computeMove s2.engineRunning eng.attempt1 eng.attempt2
              let s3 : Session Board := { s2 with engineRunning := cm.2.1 }
              match cm.1 with
              | none => ⟨s3, none, cm.2.2, false⟩
              | some _ =>
                let currentPly := R.ply b
                ⟨{ s3 with pendingMovePly := submitMove s3.pendingMovePly currentPly sub },
                  some currentPly, cm.2.2, false⟩

/-- `((event.get("variant") or {}).get("key") or "standard").lower()` from
`GameSession._handle_event`: an absent variant object, an absent key or an
empty key all default to `"standard"`; otherwise the key lowercased. -/
def effVariantKey (v : Option String) : String :=
  match v with
  | none => "standard"
  | some k => if k = "" then "standard" else lowerString k

/-- `event.get("initialFen") or "startpos"` from `GameSession._handle_event`. -/
def effInitialFen (v : Option String) : String :=
  match v with
  | none => "startpos"
  | some f => if f = "" then "startpos" else f

/-- Embeds `GameSession._set_color` (src/utils/lichess_bot.py:250-265).  The
player-name arguments collapse `white.get("name") or white.get("username") or
""`; `botUsername` is already lowercased by `__init__`. -/
def setColor (botUsername : String) (whiteName blackName : Option String)
    (cur : Option Bool) : Option Bool :=
  let wn := lowerString (whiteName.getD "")
  let bn := lowerString (blackName.getD "")
  if wn = botUsername then some true
  else if bn = botUsername then some false
  else cur

/-- One event of a game's state stream as `GameSession._handle_event`
dispatches on its `type` key. -/
inductive GameEvent where
  | gameFull (variantKey : Option String) (initialFen : Option String)
      (whiteName blackName : Option String) (state : Option StateEvent) : GameEvent
  | gameState (state : StateEvent) : GameEvent
  | chatLine : GameEvent
  | opponentGone : GameEvent
  | other : GameEvent
deriving DecidableEq

/-- Embeds `GameSession._handle_event` (src/utils/lichess_bot.py:215-248)
given the config and the bot's (lowercased) username.  A `gameFull` whose
effective variant key is not allowed resigns the game and marks the session
finished, touching nothing else; an allowed `gameFull` stores the initial
FEN, resolves the color and handles the embedded state; `gameState` handles
the state; `chatLine`, `opponentGone` and unknown types are ignored. -/
def handleEvent {Board : Type} (R : ChessRules Board) (cfg : BotConfig)
    (bot : String) (s : Session Board) (e : GameEvent) (eng : EngineOracle)
    (sub : SubmitOutcome) : StepOut Board :=
  match e with
  | .gameFull vk ifen wn bn st =>
    if effVariantKey vk ∉ cfg.allowedVariants then
      ⟨{ s with finished := true }, none, 0, true⟩
    else
      let s1 : Session Board := { s with initialFen := effInitialFen ifen }
      let s2 : Session Board := { s1 with isWhite := setColor bot wn bn s1.isWhite }
      handleState R s2 st eng sub
  | .gameState ev => handleState R s (some ev) eng sub
  | .chatLine => ⟨s, none, 0, false⟩
  | .opponentGone => ⟨s, none, 0, false⟩
  | .other => ⟨s, none, 0, false⟩

/-- Accumulated effects of a run of the session's event loop. -/
structure RunOut (Board : Type) where
  session : Session Board
  submissions : List Nat
  engineStarts : Nat
  resigns : Nat
deriving DecidableEq

/-- The event-consuming part of `GameSession.run`
(src/utils/lichess_bot.py:184-189): events of the game's state stream are
handled strictly in order, and the loop stops handling further events once
`self.finished` is set (the `break` checks before each event).  Each trace
item pairs the event with the oracles for the engine and submission calls it
may trigger. -/
def processEvents {Board : Type} (R : ChessRules Board) (cfg : BotConfig) (bot : String) :
    Session Board → List (GameEvent × EngineOracle × SubmitOutcome) → RunOut Board
  | s, [] => ⟨s, [], 0, 0⟩
  | s, (e, eng, sub) :: rest =>
    if s.finished then ⟨s, [], 0, 0⟩
    else
      let o := handleEvent R cfg bot s e eng sub
      let r := processEvents R cfg bot o.session rest
      ⟨r.session, o.submitted.toList ++ r.submissions,
        o.engineStarts + r.engineStarts,
        (if o.resigned then 1 else 0) + r.resigns⟩

/-- Same loop restricted to `gameState` events, for the pending-guard
statements: every item is a state payload with its oracles. -/
def processStates {Board : Type} (R : ChessRules Board) :
    Session Board → List (StateEvent × EngineOracle × SubmitOutcome) → RunOut Board
  | s, [] => ⟨s, [], 0, 0⟩
  | s, (ev, eng, sub) :: rest =>
    if s.finished then ⟨s, [], 0, 0⟩
    else
      let o := handleState R s (some ev) eng sub
      let r := processStates R o.session rest
      ⟨r.session, o.submitted.toList ++ r.submissions,
        o.engineStarts + r.engineStarts,
        (if o.resigned then 1 else 0) + r.resigns⟩

/-- Embeds `BotService._handle_game_start` (src/utils/lichess_bot.py:542-573)
as its effect on the registry of active game ids (the keys of
`self.active_games`), executed as one atomic step because the whole
check-then-insert runs under `self.games_lock`.  Returns the new registry and
whether `resign_game` was called: an empty id or a duplicate id is a no-op; a
start at capacity resigns without registering; otherwise the game is
registered. -/
def handleGameStart (cap : Nat) (reg : List String) (gid : String) : List String × Bool :=
  if gid = "" then (reg, false)
  else if gid ∈ reg then (reg, false)
  else if cap ≤ reg.length then (reg, true)
  else (reg ++ [gid], false)

/-- One registry-mutating event of `BotService`: a `gameStart` payload or a
session exiting (`_on_game_exit`, which pops the id under the lock). -/
inductive MgrEvent where
  | start (gid : String) : MgrEvent
  | exit (gid : String) : MgrEvent
deriving DecidableEq

/-- One atomic lock-protected registry step of `BotService`. -/
def mgrStep (cap : Nat) (reg : List String) : MgrEvent → List String × Bool
  | .start gid => handleGameStart cap reg gid
  | .exit gid => (reg.erase gid, false)

/-- A sequence of registry steps: final registry and number of resignations
issued for overflow games. -/
def mgrRun (cap : Nat) (reg : List String) : List MgrEvent → List String × Nat
  | [] => (reg, 0)
  | e :: es =>
    let p := mgrStep cap reg e
    let r := mgrRun cap p.1 es
    (r.1, (if p.2 then 1 else 0) + r.2)

/-- A concrete instance of the chess-rules interface used to witness the
parameterized theorems on explicit inputs: a board is the list of tokens
played so far, the token `"xx"` is illegal, the FEN `"badfen"` is invalid,
and white is to move at even ply. -/
def toyRules : ChessRules (List String) :=
  { defaultBoard := []
    fromFen := fun f => if f = "badfen" then none else some []
    pushUci := fun b m => if m = "xx" then none else some (b ++ [m])
    ply := fun b => b.length
    turnWhite := fun b => b.length % 2 = 0
    isGameOver := fun b => 100 ≤ b.length }

/-! ### Helper lemmas about `handleState` -/

theorem handleState_initialFen {Board : Type} (R : ChessRules Board) (s : Session Board)
    (st : Option StateEvent) (eng : EngineOracle) (sub : SubmitOutcome) :
    (handleState R s st eng sub).session.initialFen = s.initialFen := by
  unfold handleState
  cases st with
  | none => rfl
  | some ev =>
    cases hrb : rebuildBoard R s.initialFen ev.moves with
    | none => simp only [hrb]
    | some b =>
      simp only [hrb]
      repeat' split
      all_goals rfl

theorem handleState_board {Board : Type} (R : ChessRules Board) (s : Session Board)
    (ev : StateEvent) (eng : EngineOracle) (sub : SubmitOutcome) (b : Board)
    (hrb : rebuildBoard R s.initialFen ev.moves = some b) :
    (handleState R s (some ev) eng sub).session.board = b := by
  unfold handleState
  simp only [hrb]
  repeat' split
  all_goals rfl

theorem handleState_rebuild_fail {Board : Type} (R : ChessRules Board) (s : Session Board)
    (ev : StateEvent) (eng : EngineOracle) (sub : SubmitOutcome)
    (hrb : rebuildBoard R s.initialFen ev.moves = none) :
    handleState R s (some ev) eng sub = ⟨s, none, 0, false⟩ := by
  unfold handleState
  simp only [hrb]

theorem handleState_pending_kept {Board : Type} (R : ChessRules Board) (s : Session Board)
    (ev : StateEvent) (eng : EngineOracle) (sub : SubmitOutcome) (k : Nat)
    (hk : s.pendingMovePly = some k)
    (hev : ∀ b, rebuildBoard R s.initialFen ev.moves = some b → R.ply b ≤ k) :
    (handleState R s (some ev) eng sub).submitted = none ∧
    (handleState R s (some ev) eng sub).session.pendingMovePly = some k := by
  unfold handleState
  cases hrb : rebuildBoard R s.initialFen ev.moves with
  | none => simp [hrb, hk]
  | some b =>
    have hple : R.ply b ≤ k := hev b hrb
    have hnlt : ¬ k < R.ply b := by omega
    simp only [hrb, hk, if_neg hnlt, Option.isSome_some, if_true]
    split
    · exact ⟨rfl, rfl⟩
    · exact ⟨rfl, rfl⟩

theorem handleState_submit_gt {Board : Type} (R : ChessRules Board) (s : Session Board)
    (ev : StateEvent) (eng : EngineOracle) (sub : SubmitOutcome) (k p : Nat)
    (hk : s.pendingMovePly = some k)
    (hp : (handleState R s (some ev) eng sub).submitted = some p) :
    ∃ b, rebuildBoard R s.initialFen ev.moves = some b ∧ p = R.ply b ∧ k < p := by
  unfold handleState at hp
  cases hrb : rebuildBoard R s.initialFen ev.moves with
  | none => simp only [hrb] at hp; exact absurd hp (by simp)
  | some b =>
    simp only [hrb, hk] at hp
    refine ⟨b, rfl, ?_⟩
    split at hp
    · exact absurd hp (by simp)
    · by_cases hkp : k < R.ply b
      · rw [if_pos hkp] at hp
        simp only [Option.isSome_none, Bool.false_eq_true, if_false] at hp
        split at hp
        · exact absurd hp (by simp)
        · split at hp
          · exact absurd hp (by simp)
          · split at hp
            · exact absurd hp (by simp)
            · obtain rfl : R.ply b = p := Option.some.inj hp
              exact ⟨rfl, hkp⟩
      · rw [if_neg hkp] at hp
        simp only [Option.isSome_some, if_true] at hp
        exact absurd hp (by simp)

theorem handleState_pending_cleared {Board : Type} (R : ChessRules Board) (s : Session Board)
    (ev : StateEvent) (eng : EngineOracle) (sub : SubmitOutcome) (k : Nat) (b : Board)
    (hk : s.pendingMovePly = some k)
    (hrb : rebuildBoard R s.initialFen ev.moves = some b)
    (hst : effStatus ev.status = "started")
    (hov : R.isGameOver b = false)
    (hlt : k < R.ply b) :
    (handleState R s (some ev) eng sub).session.pendingMovePly = none ∨
    (handleState R s (some ev) eng sub).session.pendingMovePly = some (R.ply b) := by
  unfold handleState
  simp only [hrb, hk, if_pos hlt]
  split
  · rename_i hcond
    rw [hst] at hcond
    simp [hov] at hcond
  · simp only [Option.isSome_none, Bool.false_eq_true, if_false]
    split
    · left; rfl
    · split
      · left; rfl
      · split
        · left; rfl
        · cases sub with
          | ok => right; rfl
          | responseError msg =>
            simp only [submitMove]
            split
            · right; rfl
            · left; rfl
          | otherException => left; rfl

theorem handleState_no_move_no_submit {Board : Type} (R : ChessRules Board) (s : Session Board)
    (st : Option StateEvent) (eng : EngineOracle) (sub : SubmitOutcome)
    (hc : (computeMove s.engineRunning eng.attempt1 eng.attempt2).1 = none) :
    (handleState R s st eng sub).submitted = none := by
  cases st with
  | none => rfl
  | some ev =>
    unfold handleState
    cases hrb : rebuildBoard R s.initialFen ev.moves with
    | none => simp only [hrb]
    | some b =>
      simp only [hrb]
      split
      · rfl
      · split
        · rfl
        · split
          · rfl
          · split
            · rfl
            · rw [hc]

theorem processEvents_finished {Board : Type} (R : ChessRules Board) (cfg : BotConfig)
    (bot : String) (s : Session Board)
    (items : List (GameEvent × EngineOracle × SubmitOutcome))
    (hf : s.finished = true) : processEvents R cfg bot s items = ⟨s, [], 0, 0⟩ := by
  cases items with
  | nil => rfl
  | cons x rest =>
    obtain ⟨e, eng, sub⟩ := x
    unfold processEvents
    rw [if_pos hf]

theorem processStates_pending_kept {Board : Type} (R : ChessRules Board) (k : Nat)
    (fen : String) (items : List (StateEvent × EngineOracle × SubmitOutcome)) :
    ∀ s : Session Board, s.pendingMovePly = some k → s.initialFen = fen →
      (∀ x ∈ items, ∀ b, rebuildBoard R fen x.1.moves = some b → R.ply b ≤ k) →
      (processStates R s items).submissions = [] ∧
      (processStates R s items).session.pendingMovePly = some k := by
  induction items with
  | nil => intro s hk _ _; exact ⟨rfl, hk⟩
  | cons x rest ih =>
    obtain ⟨ev, eng, sub⟩ := x
    intro s hk hfen hev
    unfold processStates
    by_cases hf : s.finished
    · rw [if_pos hf]; exact ⟨rfl, hk⟩
    · rw [if_neg hf]
      have hev1 : ∀ b, rebuildBoard R s.initialFen ev.moves = some b → R.ply b ≤ k := by
        rw [hfen]
        exact fun b hb => hev (ev, eng, sub) (List.mem_cons_self _ _) b hb
      have hstep := handleState_pending_kept R s ev eng sub k hk hev1
      have hrest := ih (handleState R s (some ev) eng sub).session hstep.2
        (by rw [handleState_initialFen]; exact hfen)
        (fun x hx => hev x (List.mem_cons_of_mem _ hx))
      refine ⟨?_, hrest.2⟩
      dsimp only
      rw [hstep.1, hrest.1]
      rfl

/-! ### Helper lemmas about the manager registry and the backoff sequence -/

theorem mgrStep_length_le (cap : Nat) (reg : List String) (e : MgrEvent)
    (h : reg.length ≤ cap) : (mgrStep cap reg e).1.length ≤ cap := by
  cases e with
  | start gid =>
    simp only [mgrStep, handleGameStart]
    repeat' split
    · exact h
    · exact h
    · exact h
    · simp only [List.length_append, List.length_cons, List.length_nil]
      omega
  | exit gid =>
    simp only [mgrStep]
    exact le_trans (List.length_erase_le _ _) h

theorem mgrRun_length_le (cap : Nat) (events : List MgrEvent) :
    ∀ reg : List String, reg.length ≤ cap → (mgrRun cap reg events).1.length ≤ cap := by
  induction events with
  | nil => intro reg h; exact h
  | cons e es ih =>
    intro reg h
    unfold mgrRun
    exact ih _ (mgrStep_length_le cap reg e h)

theorem backoffSeq_nonneg (base maxB : ℚ) (h0 : 0 ≤ base) (hbm : base ≤ maxB) :
    ∀ n, 0 ≤ backoffSeq base maxB n := by
  intro n
  induction n with
  | zero => exact h0
  | succ n ih => exact le_min (mul_nonneg ih (by norm_num)) (h0.trans hbm)

theorem backoffSeq_le_max (base maxB : ℚ) (hbm : base ≤ maxB) :
    ∀ n, backoffSeq base maxB n ≤ maxB := by
  intro n
  cases n with
  | zero => exact hbm
  | succ n => exact min_le_right _ _

theorem backoffSeq_mono_step (base maxB : ℚ) (h0 : 0 ≤ base) (hbm : base ≤ maxB) (n : Nat) :
    backoffSeq base maxB n ≤ backoffSeq base maxB (n + 1) := by
  have hn := backoffSeq_nonneg base maxB h0 hbm n
  have hM := backoffSeq_le_max base maxB hbm n
  exact le_min (by linarith) hM

theorem nextBackoff_outcome_free (maxB d : ℚ) (o o2 : LoopOutcome) :
    nextBackoff maxB d o = nextBackoff maxB d o2 := by
  cases o <;> cases o2 <;> rfl

theorem retryDelays_eq_backoffSeq (maxB base : ℚ) (os : List LoopOutcome) :
    ∀ k : Nat, retryDelays maxB (backoffSeq base maxB k) os
      = (List.range os.length).map (fun n => backoffSeq base maxB (k + n)) := by
  induction os with
  | nil => intro k; rfl
  | cons o os ih =>
    intro k
    show backoffSeq base maxB k :: retryDelays maxB (nextBackoff maxB (backoffSeq base maxB k) o) os = _
    have hnext : nextBackoff maxB (backoffSeq base maxB k) o = backoffSeq base maxB (k + 1) := by
      cases o <;> rfl
    rw [hnext, ih (k + 1), List.length_cons, List.range_succ_eq_map, List.map_cons, List.map_map]
    refine congrArg₂ _ (by rw [Nat.add_zero]) ?_
    refine List.map_congr_left fun n _ => ?_
    simp only [Function.comp_apply]
    exact congrArg (backoffSeq base maxB) (by omega)

theorem handleEvent_bad_variant {Board : Type} (R : ChessRules Board) (cfg : BotConfig)
    (bot : String) (s : Session Board) (vk ifen wn bn : Option String)
    (st : Option StateEvent) (eng : EngineOracle) (sub : SubmitOutcome)
    (hv : effVariantKey vk ∉ cfg.allowedVariants) :
    handleEvent R cfg bot s (.gameFull vk ifen wn bn st) eng sub
      = ⟨{ s with finished := true }, none, 0, true⟩ := by
  simp only [handleEvent, if_pos hv]

theorem truncToInt_nonpos (q : ℚ) (h : q ≤ 0) : truncToInt q ≤ 0 := by
  unfold truncToInt
  split
  · rename_i h0
    have hq : q = 0 := le_antisymm h h0
    simp [hq]
  · exact Int.ceil_le.mpr (by exact_mod_cast h)

theorem toMillis_nonneg (v : ClockValue) : 0 ≤ toMillis v := by
  cases v <;> simp [toMillis]

theorem buildLimit_fallback_of_wtime (cfg : BotConfig) (ev : StateEvent)
    (h : toMillis ev.wtime = 0) : buildLimit cfg ev = fallbackLimit cfg := by
  unfold buildLimit
  have hneg : ¬(0 < max 0 (toMillis ev.wtime - (cfg.moveOverheadMs : ℤ)) ∧
      0 < max 0 (toMillis ev.btime - (cfg.moveOverheadMs : ℤ))) := by
    rw [h]
    intro hc
    obtain ⟨hc1, -⟩ := hc
    omega
  rw [if_neg hneg]

theorem buildLimit_fallback_of_btime (cfg : BotConfig) (ev : StateEvent)
    (h : toMillis ev.btime = 0) : buildLimit cfg ev = fallbackLimit cfg := by
  unfold buildLimit
  have hneg : ¬(0 < max 0 (toMillis ev.wtime - (cfg.moveOverheadMs : ℤ)) ∧
      0 < max 0 (toMillis ev.btime - (cfg.moveOverheadMs : ℤ))) := by
    rw [h]
    intro hc
    obtain ⟨-, hc2⟩ := hc
    omega
  rw [if_neg hneg]

theorem buildLimit_clock_of_gt (cfg : BotConfig) (ev : StateEvent)
    (hw : (cfg.moveOverheadMs : ℤ) < toMillis ev.wtime)
    (hb : (cfg.moveOverheadMs : ℤ) < toMillis ev.btime) :
    buildLimit cfg ev = specClockLimit cfg ev := by
  unfold buildLimit specClockLimit
  rw [if_pos ⟨by omega, by omega⟩]

theorem buildLimit_fallback_of_le (cfg : BotConfig) (ev : StateEvent)
    (h : ¬((cfg.moveOverheadMs : ℤ) < toMillis ev.wtime ∧
        (cfg.moveOverheadMs : ℤ) < toMillis ev.btime)) :
    buildLimit cfg ev = fallbackLimit cfg := by
  unfold buildLimit
  have hneg : ¬(0 < max 0 (toMillis ev.wtime - (cfg.moveOverheadMs : ℤ)) ∧
      0 < max 0 (toMillis ev.btime - (cfg.moveOverheadMs : ℤ))) := by
    intro hc
    obtain ⟨hc1, hc2⟩ := hc
    exact h ⟨by omega, by omega⟩
  rw [if_neg hneg]

/-! ### Claim theorems -/

/-- C1: for every sequence of registry events (game starts and session exits)
processed by `BotService` with concurrency cap C, the number of registered
active game sessions never exceeds C (every intermediate registry is `mgrRun`
over a prefix of the event sequence, so the first conjunct, quantified over
all event lists from any within-cap registry, bounds every instant); and a
game-start event arriving while the registry already holds C sessions causes
a resignation of that game with no session registered.  The at-cap check and
the insert form the single atomic step `handleGameStart` because the source
runs them under `self.games_lock`. -/
theorem capacity_invariant :
    (∀ (cap : Nat) (reg : List String) (events : List MgrEvent),
      reg.length ≤ cap → (mgrRun cap reg events).1.length ≤ cap) ∧
    (∀ (cap : Nat) (reg : List String) (gid : String),
      gid ≠ "" → gid ∉ reg → cap ≤ reg.length →
      handleGameStart cap reg gid = (reg, true)) := by
  constructor
  · intro cap reg events h
    exact mgrRun_length_le cap events reg h
  · intro cap reg gid hne hnin hcap
    unfold handleGameStart
    rw [if_neg hne, if_neg hnin, if_pos hcap]

theorem capacity_invariant_witness :
    (mgrRun 1 ["g1"] [.start "g2", .exit "g1", .start "g3"]).1.length ≤ 1 ∧
    handleGameStart 1 ["g1"] "g2" = (["g1"], true) :=
  ⟨capacity_invariant.1 1 ["g1"] [.start "g2", .exit "g1", .start "g3"] (by decide),
   capacity_invariant.2 1 ["g1"] "g2" (by decide) (by decide) (by decide)⟩

/-- C2: once a session has set `pending_move_ply = k`, (a) any move submitted
while the marker is `k` is submitted at a reconstructed ply strictly greater
than `k`; (b) across any run of subsequent game-state events each of which
fails to rebuild or whose reconstructed board reports ply ≤ k, no move is
submitted and the marker stays `k`; (c) an event whose reconstructed board
reports ply > k (with the game still running) clears the `k` marker — the
marker afterwards is either gone or the ply of the submission made on that
same event. -/
theorem pending_move_guard :
    (∀ {Board : Type} (R : ChessRules Board) (s : Session Board) (ev : StateEvent)
        (eng : EngineOracle) (sub : SubmitOutcome) (k p : Nat),
      s.pendingMovePly = some k →
      (handleState R s (some ev) eng sub).submitted = some p →
      ∃ b, rebuildBoard R s.initialFen ev.moves = some b ∧ p = R.ply b ∧ k < p) ∧
    (∀ {Board : Type} (R : ChessRules Board) (s : Session Board)
        (items : List (StateEvent × EngineOracle × SubmitOutcome)) (k : Nat),
      s.pendingMovePly = some k →
      (∀ x ∈ items, ∀ b, rebuildBoard R s.initialFen x.1.moves = some b → R.ply b ≤ k) →
      (processStates R s items).submissions = [] ∧
      (processStates R s items).session.pendingMovePly = some k) ∧
    (∀ {Board : Type} (R : ChessRules Board) (s : Session Board) (ev : StateEvent)
        (eng : EngineOracle) (sub : SubmitOutcome) (k : Nat) (b : Board),
      s.pendingMovePly = some k →
      rebuildBoard R s.initialFen ev.moves = some b →
      effStatus ev.status = "started" → R.isGameOver b = false → k < R.ply b →
      (handleState R s (some ev) eng sub).session.pendingMovePly = none ∨
      (handleState R s (some ev) eng sub).session.pendingMovePly = some (R.ply b)) :=
  ⟨fun R s ev eng sub k p hk hp => handleState_submit_gt R s ev eng sub k p hk hp,
   fun R s items k hk hev => processStates_pending_kept R k s.initialFen items s hk rfl hev,
   fun R s ev eng sub k b hk hrb hst hov hlt =>
     handleState_pending_cleared R s ev eng sub k b hk hrb hst hov hlt⟩

theorem pending_move_guard_witness :
    (processStates toyRules
        ⟨"startpos", [], some true, false, some 5, false⟩
        [(⟨["a", "b"], "started", .absent, .absent, .absent, .absent⟩,
          ⟨.noMove, .noMove⟩, .ok)]).submissions = [] ∧
    (processStates toyRules
        ⟨"startpos", [], some true, false, some 5, false⟩
        [(⟨["a", "b"], "started", .absent, .absent, .absent, .absent⟩,
          ⟨.noMove, .noMove⟩, .ok)]).session.pendingMovePly = some 5 :=
  pending_move_guard.2.1 toyRules
    ⟨"startpos", [], some true, false, some 5, false⟩
    [(⟨["a", "b"], "started", .absent, .absent, .absent, .absent⟩,
      ⟨.noMove, .noMove⟩, .ok)] 5 rfl
    (by
      intro x hx b hb
      simp only [List.mem_singleton] at hx
      subst hx
      have hb2 : some ["a", "b"] = some b := hb
      cases Option.some.inj hb2
      decide)

/-- C3: whenever the move list of a game-state event replays successfully to
a board `b` (from the session's initial position — conjunct two makes the
replay explicit), the session's board after processing the event is exactly
`b`, for every prior session state; redelivering the same event afterwards
yields the same board again (idempotent reconstruction). -/
theorem board_reconstruction_replay :
    ∀ {Board : Type} (R : ChessRules Board) (s : Session Board) (ev : StateEvent)
      (eng eng2 : EngineOracle) (sub sub2 : SubmitOutcome) (b : Board),
      rebuildBoard R s.initialFen ev.moves = some b →
      (handleState R s (some ev) eng sub).session.board = b ∧
      (∀ b0, (if s.initialFen = "startpos" then some R.defaultBoard
          else R.fromFen s.initialFen) = some b0 →
        replayMoves R b0 ev.moves = some b) ∧
      (handleState R (handleState R s (some ev) eng sub).session
        (some ev) eng2 sub2).session.board = b := by
  intro Board R s ev eng eng2 sub sub2 b hrb
  refine ⟨handleState_board R s ev eng sub b hrb, ?_, ?_⟩
  · intro b0 hb0
    unfold rebuildBoard at hrb
    simp only [hb0] at hrb
    exact hrb
  · apply handleState_board
    rw [handleState_initialFen]
    exact hrb

theorem board_reconstruction_replay_witness :
    (handleState toyRules ⟨"startpos", ["zz"], none, false, none, false⟩
      (some ⟨["e2e4", "e7e5"], "started", .absent, .absent, .absent, .absent⟩)
      ⟨.noMove, .noMove⟩ .ok).session.board = ["e2e4", "e7e5"] :=
  (board_reconstruction_replay toyRules
    ⟨"startpos", ["zz"], none, false, none, false⟩
    ⟨["e2e4", "e7e5"], "started", .absent, .absent, .absent, .absent⟩
    ⟨.noMove, .noMove⟩ ⟨.noMove, .noMove⟩ .ok .ok ["e2e4", "e7e5"] rfl).1

/-- C4: when the move list of a game-state event fails to replay (a token is
unparseable or illegal, or the stored initial FEN is invalid), the session
state — board, pending marker, color, finished flag and engine — is exactly
what it was before the event, no move is submitted, no engine is spawned and
nothing is resigned: the event is dropped without mutation. -/
theorem invalid_event_dropped :
    ∀ {Board : Type} (R : ChessRules Board) (s : Session Board) (ev : StateEvent)
      (eng : EngineOracle) (sub : SubmitOutcome),
      rebuildBoard R s.initialFen ev.moves = none →
      handleState R s (some ev) eng sub = ⟨s, none, 0, false⟩ :=
  fun R s ev eng sub hrb => handleState_rebuild_fail R s ev eng sub hrb

theorem invalid_event_dropped_witness :
    handleState toyRules ⟨"startpos", ["e2e4"], some true, false, some 1, true⟩
      (some ⟨["e7e5", "xx"], "started", .absent, .absent, .absent, .absent⟩)
      ⟨.noMove, .noMove⟩ .ok
      = ⟨⟨"startpos", ["e2e4"], some true, false, some 1, true⟩, none, 0, false⟩ :=
  invalid_event_dropped toyRules ⟨"startpos", ["e2e4"], some true, false, some 1, true⟩
    ⟨["e7e5", "xx"], "started", .absent, .absent, .absent, .absent⟩
    ⟨.noMove, .noMove⟩ .ok rfl

/-- C5: in `_compute_move`, a termination error on the first attempt leads to
exactly one engine respawn and a retried request (first conjunct: the spawn
count rises by exactly one over the lazy-start count); termination on both
attempts returns no move (second conjunct); any other computation error
returns no move with no respawn (third conjunct); the embedding is a total
function, so no exception escapes; and when no move is returned the event
handler submits nothing (fourth conjunct). -/
theorem engine_restart_policy :
    (∀ (running : Bool) (m : String),
      computeMove running .terminated (.success m)
        = (some m, true, (if running then 0 else 1) + 1)) ∧
    (∀ running : Bool,
      computeMove running .terminated .terminated
        = (none, false, (if running then 0 else 1) + 1)) ∧
    (∀ (running : Bool) (o2 : PlayOutcome),
      computeMove running .otherError o2 = (none, true, if running then 0 else 1)) ∧
    (∀ {Board : Type} (R : ChessRules Board) (s : Session Board) (st : Option StateEvent)
        (eng : EngineOracle) (sub : SubmitOutcome),
      (computeMove s.engineRunning eng.attempt1 eng.attempt2).1 = none →
      (handleState R s st eng sub).submitted = none) :=
  ⟨fun _ _ => rfl, fun _ => rfl, fun _ _ => rfl,
   fun R s st eng sub hc => handleState_no_move_no_submit R s st eng sub hc⟩

theorem engine_restart_policy_witness :
    computeMove true .terminated .terminated = (none, false, 1) ∧
    (handleState toyRules ⟨"startpos", [], some true, false, none, true⟩
      (some ⟨[], "started", .absent, .absent, .absent, .absent⟩)
      ⟨.terminated, .terminated⟩ .ok).submitted = none :=
  ⟨engine_restart_policy.2.1 true,
   engine_restart_policy.2.2.2 toyRules ⟨"startpos", [], some true, false, none, true⟩
     (some ⟨[], "started", .absent, .absent, .absent, .absent⟩)
     ⟨.terminated, .terminated⟩ .ok rfl⟩

/-- C6 counterexample: `_load_config` accepts `reconnect_base_seconds = 100`
(minimum 0.1) together with `max_backoff_seconds = 60` (minimum 1.0) — there
is no cross-field check — and then the first retry delay exceeds the
configured maximum and the second delay is strictly smaller than the first,
so the delay sequence is neither bounded by `max_backoff_seconds` nor
monotonically non-decreasing as the claim states. -/
theorem backoff_claim_counterexample :
    60 < backoffSeq 100 60 0 ∧ backoffSeq 100 60 1 < backoffSeq 100 60 0 := by
  constructor <;> norm_num [backoffSeq]

/-- C6 (amended): provided the base reconnect delay is nonnegative and does
not exceed the maximum backoff (true of the defaults 1.0 and 60.0), within
one subscription loop the retry delays are monotonically non-decreasing, each
delay is at most `max_backoff_seconds`, each next delay is
min(2 × previous, max_backoff_seconds), and the delay is never reset after a
successful reconnection: the update is the same on every loop outcome, so the
n-th slept delay is exactly `backoffSeq n` regardless of the outcome
history. -/
theorem backoff_monotone_bounded (base maxB : ℚ) (h0 : 0 ≤ base) (hbm : base ≤ maxB) :
    (∀ n, backoffSeq base maxB n ≤ backoffSeq base maxB (n + 1)) ∧
    (∀ n, backoffSeq base maxB n ≤ maxB) ∧
    (∀ n, backoffSeq base maxB (n + 1) = min (backoffSeq base maxB n * 2) maxB) ∧
    (∀ (d : ℚ) (o o2 : LoopOutcome), nextBackoff maxB d o = nextBackoff maxB d o2) ∧
    (∀ os : List LoopOutcome,
      retryDelays maxB base os = (List.range os.length).map (backoffSeq base maxB)) := by
  refine ⟨backoffSeq_mono_step base maxB h0 hbm, backoffSeq_le_max base maxB hbm,
    fun n => rfl, nextBackoff_outcome_free maxB, fun os => ?_⟩
  have h := retryDelays_eq_backoffSeq maxB base os 0
  simpa using h

theorem backoff_monotone_bounded_witness :
    backoffSeq 1 60 3 ≤ backoffSeq 1 60 4 ∧ backoffSeq 1 60 7 ≤ 60 ∧
    retryDelays 60 1 [.ended, .errored, .ended]
      = (List.range 3).map (backoffSeq 1 60) :=
  ⟨(backoff_monotone_bounded 1 60 (by norm_num) (by norm_num)).1 3,
   (backoff_monotone_bounded 1 60 (by norm_num) (by norm_num)).2.1 7,
   (backoff_monotone_bounded 1 60 (by norm_num) (by norm_num)).2.2.2.2
     [.ended, .errored, .ended]⟩

/-- C7 counterexample: with the default overhead margin 150 ms, a state event
in which both sides report positive remaining time (white 100 ms, black
10000 ms) yields the fixed fallback limit, not the clock-aware limit the
claim promises (`specClockLimit`, written from the claim's own words), because
white's clock minus the overhead floors to zero. -/
theorem time_budget_claim_counterexample :
    0 < toMillis (ClockValue.intLike 100) ∧
    0 < toMillis (ClockValue.intLike 10000) ∧
    buildLimit ⟨["standard"], 1, 1, 60, 150, 1⟩
        ⟨[], "started", .intLike 100, .intLike 10000, .intLike 0, .intLike 0⟩
      ≠ specClockLimit ⟨["standard"], 1, 1, 60, 150, 1⟩
        ⟨[], "started", .intLike 100, .intLike 10000, .intLike 0, .intLike 0⟩ ∧
    buildLimit ⟨["standard"], 1, 1, 60, 150, 1⟩
        ⟨[], "started", .intLike 100, .intLike 10000, .intLike 0, .intLike 0⟩
      = fallbackLimit ⟨["standard"], 1, 1, 60, 150, 1⟩ := by
  refine ⟨by decide, by decide, ?_, ?_⟩ <;> decide

/-- C7 (amended): the time budget is the clock-aware limit (each side's
remaining time minus the move-overhead margin, floored at zero, plus the
increments) exactly when each side's reported remaining time strictly exceeds
the overhead margin; in every other case — remaining time absent,
non-positive, or not exceeding the overhead margin — the budget is the fixed
fallback think time from `BotConfig`. -/
theorem time_budget_overhead_threshold (cfg : BotConfig) (ev : StateEvent) :
    ((cfg.moveOverheadMs : ℤ) < toMillis ev.wtime ∧
        (cfg.moveOverheadMs : ℤ) < toMillis ev.btime →
      buildLimit cfg ev = specClockLimit cfg ev) ∧
    (¬((cfg.moveOverheadMs : ℤ) < toMillis ev.wtime ∧
        (cfg.moveOverheadMs : ℤ) < toMillis ev.btime) →
      buildLimit cfg ev = fallbackLimit cfg) :=
  ⟨fun h => buildLimit_clock_of_gt cfg ev h.1 h.2,
   fun h => buildLimit_fallback_of_le cfg ev h⟩

theorem time_budget_overhead_threshold_witness :
    buildLimit ⟨["standard"], 1, 1, 60, 150, 1⟩
        ⟨[], "started", .intLike 10000, .intLike 20000, .intLike 1000, .intLike 1000⟩
      = specClockLimit ⟨["standard"], 1, 1, 60, 150, 1⟩
        ⟨[], "started", .intLike 10000, .intLike 20000, .intLike 1000, .intLike 1000⟩ ∧
    buildLimit ⟨["standard"], 1, 1, 60, 150, 1⟩
        ⟨[], "started", .absent, .intLike 20000, .intLike 1000, .intLike 1000⟩
      = fallbackLimit ⟨["standard"], 1, 1, 60, 150, 1⟩ :=
  ⟨(time_budget_overhead_threshold ⟨["standard"], 1, 1, 60, 150, 1⟩
      ⟨[], "started", .intLike 10000, .intLike 20000, .intLike 1000, .intLike 1000⟩).1
      ⟨by decide, by decide⟩,
   (time_budget_overhead_threshold ⟨["standard"], 1, 1, 60, 150, 1⟩
      ⟨[], "started", .absent, .intLike 20000, .intLike 1000, .intLike 1000⟩).2
      (by decide)⟩

/-- C8: a move submission that fails with a response error whose lowercased
message contains "not your turn" sets the pending marker to the current ply
exactly as a successful submission does; a response error without that text
leaves the marker unchanged, as does any other exception; and `_submit_move`
issues exactly one platform call per invocation, so no retry happens within
the event. -/
theorem submission_race_handling :
    (∀ (pending : Option Nat) (ply : Nat) (msg : String),
      containsSubstr "not your turn" (lowerString msg) = true →
      submitMove pending ply (.responseError msg) = some ply ∧
      submitMove pending ply .ok = some ply) ∧
    (∀ (pending : Option Nat) (ply : Nat) (msg : String),
      containsSubstr "not your turn" (lowerString msg) = false →
      submitMove pending ply (.responseError msg) = pending) ∧
    (∀ (pending : Option Nat) (ply : Nat),
      submitMove pending ply .otherException = pending) ∧
    (∀ o : SubmitOutcome, submitCallCount o = 1) := by
  refine ⟨fun pending ply msg h => ⟨?_, rfl⟩, fun pending ply msg h => ?_,
    fun pending ply => rfl, fun o => rfl⟩
  · simp [submitMove, h]
  · simp [submitMove, h]

theorem submission_race_handling_witness :
    submitMove (some 2) 7 (.responseError "Lichess says: Not your turn!") = some 7 ∧
    submitMove (some 2) 7 (.responseError "HTTP 500 internal error") = some 2 :=
  ⟨((submission_race_handling.1 (some 2) 7 "Lichess says: Not your turn!") (by decide)).1,
   submission_race_handling.2.1 (some 2) 7 "HTTP 500 internal error" (by decide)⟩

/-- C9: a `gameFull` event whose effective variant key is not in the accepted
set makes the session resign the game and set its finished flag, with no
other part of the event processed — initial FEN, color, board and marker are
untouched, nothing is submitted and no engine is spawned; and a fresh session
whose stream starts with such an event ends with one resignation, no
submissions, zero engine spawns and no running engine, because the finished
session handles no further events. -/
theorem variant_mismatch_resigns :
    ∀ {Board : Type} (R : ChessRules Board) (cfg : BotConfig) (bot : String)
      (s : Session Board) (vk ifen wn bn : Option String) (st : Option StateEvent)
      (eng : EngineOracle) (sub : SubmitOutcome)
      (rest : List (GameEvent × EngineOracle × SubmitOutcome)),
      effVariantKey vk ∉ cfg.allowedVariants →
      handleEvent R cfg bot s (.gameFull vk ifen wn bn st) eng sub
        = ⟨{ s with finished := true }, none, 0, true⟩ ∧
      processEvents R cfg bot (freshSession R)
          ((.gameFull vk ifen wn bn st, eng, sub) :: rest)
        = ⟨{ freshSession R with finished := true }, [], 0, 1⟩ := by
  intro Board R cfg bot s vk ifen wn bn st eng sub rest hv
  refine ⟨handleEvent_bad_variant R cfg bot s vk ifen wn bn st eng sub hv, ?_⟩
  have h1 := handleEvent_bad_variant R cfg bot (freshSession R) vk ifen wn bn st eng sub hv
  unfold processEvents
  rw [if_neg (by simp [freshSession])]
  simp only [h1]
  rw [processEvents_finished R cfg bot { freshSession R with finished := true } rest rfl]
  simp

theorem variant_mismatch_resigns_witness :
    handleEvent toyRules ⟨["standard"], 1, 1, 60, 150, 1⟩ "mybot"
        ⟨"startpos", [], none, false, none, false⟩
        (.gameFull (some "chess960") none (some "mybot") (some "other")
          (some ⟨[], "started", .absent, .absent, .absent, .absent⟩))
        ⟨.noMove, .noMove⟩ .ok
      = ⟨⟨"startpos", [], none, true, none, false⟩, none, 0, true⟩ ∧
    processEvents toyRules ⟨["standard"], 1, 1, 60, 150, 1⟩ "mybot"
        (freshSession toyRules)
        [(.gameFull (some "chess960") none (some "mybot") (some "other")
            (some ⟨[], "started", .absent, .absent, .absent, .absent⟩),
          ⟨.noMove, .noMove⟩, .ok),
         (.gameState ⟨[], "started", .absent, .absent, .absent, .absent⟩,
          ⟨.success "e2e4", .noMove⟩, .ok)]
      = ⟨{ freshSession toyRules with finished := true }, [], 0, 1⟩ :=
  variant_mismatch_resigns toyRules ⟨["standard"], 1, 1, 60, 150, 1⟩ "mybot"
    ⟨"startpos", [], none, false, none, false⟩
    (some "chess960") none (some "mybot") (some "other")
    (some ⟨[], "started", .absent, .absent, .absent, .absent⟩)
    ⟨.noMove, .noMove⟩ .ok
    [(.gameState ⟨[], "started", .absent, .absent, .absent, .absent⟩,
      ⟨.success "e2e4", .noMove⟩, .ok)]
    (by decide)

/-- C10: the clock-conversion `_to_millis` is total and never raises (it is a
function in the embedding, with the exception branches mapped to 0): every
input yields a non-negative integer, `None` and unconvertible values map
to 0, negative durations and negative integers clamp to 0, and a zero
conversion on either side routes `_build_limit` to the fixed fallback think
time. -/
theorem to_millis_total_safe :
    (∀ v : ClockValue, 0 ≤ toMillis v) ∧
    toMillis .absent = 0 ∧
    toMillis .unconvertible = 0 ∧
    (∀ n : ℤ, n ≤ 0 → toMillis (.intLike n) = 0) ∧
    (∀ t : ℚ, t ≤ 0 → toMillis (.duration t) = 0) ∧
    (∀ (cfg : BotConfig) (ev : StateEvent),
      toMillis ev.wtime = 0 → buildLimit cfg ev = fallbackLimit cfg) ∧
    (∀ (cfg : BotConfig) (ev : StateEvent),
      toMillis ev.btime = 0 → buildLimit cfg ev = fallbackLimit cfg) := by
  refine ⟨toMillis_nonneg, rfl, rfl, ?_, ?_,
    buildLimit_fallback_of_wtime, buildLimit_fallback_of_btime⟩
  · intro n hn
    simp only [toMillis]
    omega
  · intro t ht
    have h1 : t * 1000 ≤ 0 := by linarith
    have h2 := truncToInt_nonpos (t * 1000) h1
    simp only [toMillis]
    omega

theorem to_millis_total_safe_witness :
    toMillis (.intLike (-250)) = 0 ∧
    toMillis (.duration (-3/2)) = 0 ∧
    buildLimit ⟨["standard"], 1, 1, 60, 150, 1⟩
        ⟨[], "started", .unconvertible, .intLike 20000, .absent, .absent⟩
      = fallbackLimit ⟨["standard"], 1, 1, 60, 150, 1⟩ :=
  ⟨to_millis_total_safe.2.2.2.1 (-250) (by norm_num),
   to_millis_total_safe.2.2.2.2.1 (-3/2) (by norm_num),
   to_millis_total_safe.2.2.2.2.2.1 ⟨["standard"], 1, 1, 60, 150, 1⟩
     ⟨[], "started", .unconvertible, .intLike 20000, .absent, .absent⟩ rfl⟩

end Sykora
